import Mathlib

/-!
Verification of the brl2brf streaming converter core.

This file is a shallow embedding, in Lean 4, of the parts of the brl2brf
repository that the verified properties talk about:

* the Python text codecs (UTF-8 / UTF-16 / UTF-32 decode and encode) as used
  through bytes.decode / str.encode, restricted to what the repository calls
  (little-endian platform, BOM handling, error reason classes and error start
  offsets);
* converters.unicode: UnicodeConverter.unicode_decode, guess_encoding_of,
  count_unicode_braille_chars and the generic close;
* converters.brf: unicode_to_brf.convert and brf_to_unicode.convert / close;
* converters.kwb: kwb_to_brf (header / content / trailer state machine);
* converters.converter: the base converter close and convert_string guards,
  and converter_chain.close;
* converters.brl: brl_to_brf / brf_to_brl (byte-table converters, used as
  concrete instances of the base-class behavior);
* converters.__init__: the converter registry, find_converter_chain and
  find_converter.

Bytes are modelled as List Nat (each element a byte value), Python str values
as List Nat of Unicode code points.  Python exceptions are modelled with
Except: a .error value corresponds to an exception escaping the call, .ok to
a normal return.  Python functions that can return None return an Option
inside .ok.
-/

/-- The error classes a modelled call can signal.  converterError covers
ConverterError and its subclasses raised by the repository code,
typeError models a Python TypeError (e.g. iterating over None), fuelOut
models non-termination of unbounded Python recursion (RecursionError). -/
inductive PyErr where
  | converterError : PyErr
  | unicodeConverterError : PyErr
  | typeError : PyErr
  | fuelOut : PyErr
deriving DecidableEq, Repr

/-- Result of a failing bytes.decode call: CPython distinguishes the reasons
"unexpected end of data" / "truncated data" (here: truncation) from all other
reasons such as "invalid start byte" or "code point not in range" (here:
malformed).  The Nat is the UnicodeDecodeError.start offset into the input
bytes. -/
inductive DecErr where
  | truncation : Nat → DecErr
  | malformed : Nat → DecErr
deriving DecidableEq, Repr

/-- The three text encodings the repository uses. -/
inductive Enc where
  | utf8 : Enc
  | utf16 : Enc
  | utf32 : Enc
deriving DecidableEq, Repr

/-- Is b a UTF-8 continuation byte (0x80..0xBF)? -/
def utf8IsCont (b : Nat) : Bool := 0x80 ≤ b && b < 0xC0

/-- Allowed range of the first continuation byte of a 3-byte UTF-8 sequence
led by b (CPython rejects overlong forms and surrogates here). -/
def utf8Cont3Ok (b b1 : Nat) : Bool :=
  if b = 0xE0 then 0xA0 ≤ b1 && b1 < 0xC0
  else if b = 0xED then 0x80 ≤ b1 && b1 < 0xA0
  else utf8IsCont b1

/-- Allowed range of the first continuation byte of a 4-byte UTF-8 sequence
led by b. -/
def utf8Cont4Ok (b b1 : Nat) : Bool :=
  if b = 0xF0 then 0x90 ≤ b1 && b1 < 0xC0
  else if b = 0xF4 then 0x80 ≤ b1 && b1 < 0x90
  else utf8IsCont b1

/-- the CPython UTF-8 decoder on a byte list, tracking the absolute offset pos
of the current position for error reporting. -/
def utf8DecodeFrom (l : List Nat) (pos : Nat) : Except DecErr (List Nat) :=
  match l with
  | [] => .ok []
  | b :: rest =>
    if b < 0x80 then (utf8DecodeFrom rest (pos + 1)).map (b :: ·)
    else if b < 0xC2 then .error (.malformed pos)
    else if b < 0xE0 then
      match rest with
      | [] => .error (.truncation pos)
      | b1 :: rest1 =>
        if utf8IsCont b1 then
          (utf8DecodeFrom rest1 (pos + 2)).map (((b - 0xC0) * 64 + (b1 - 0x80)) :: ·)
        else .error (.malformed pos)
    else if b < 0xF0 then
      match rest with
      | [] => .error (.truncation pos)
      | b1 :: rest1 =>
        if utf8Cont3Ok b b1 then
          match rest1 with
          | [] => .error (.truncation pos)
          | b2 :: rest2 =>
            if utf8IsCont b2 then
              (utf8DecodeFrom rest2 (pos + 3)).map
                (((b - 0xE0) * 4096 + (b1 - 0x80) * 64 + (b2 - 0x80)) :: ·)
            else .error (.malformed pos)
        else .error (.malformed pos)
    else if b < 0xF5 then
      match rest with
      | [] => .error (.truncation pos)
      | b1 :: rest1 =>
        if utf8Cont4Ok b b1 then
          match rest1 with
          | [] => .error (.truncation pos)
          | b2 :: rest2 =>
            if utf8IsCont b2 then
              match rest2 with
              | [] => .error (.truncation pos)
              | b3 :: rest3 =>
                if utf8IsCont b3 then
                  (utf8DecodeFrom rest3 (pos + 4)).map
                    (((b - 0xF0) * 262144 + (b1 - 0x80) * 4096 +
                      (b2 - 0x80) * 64 + (b3 - 0x80)) :: ·)
                else .error (.malformed pos)
            else .error (.malformed pos)
        else .error (.malformed pos)
      else .error (.malformed pos)

/-- Combine two bytes into a UTF-16 code unit (be selects big-endian). -/
def utf16Unit (be : Bool) (b0 b1 : Nat) : Nat :=
  if be then 256 * b0 + b1 else b0 + 256 * b1

/-- the CPython UTF-16 decoder body after BOM handling.  pos is the absolute
offset of the current position in the original byte string. -/
def utf16DecodeFrom (l : List Nat) (pos : Nat) (be : Bool) : Except DecErr (List Nat) :=
  match l with
  | [] => .ok []
  | [_] => .error (.truncation pos)
  | b0 :: b1 :: rest =>
    let u := utf16Unit be b0 b1
    if u < 0xD800 || 0xE000 ≤ u then
      (utf16DecodeFrom rest (pos + 2) be).map (u :: ·)
    else if u < 0xDC00 then
      match rest with
      | [] => .error (.truncation pos)
      | [_] => .error (.truncation pos)
      | c0 :: c1 :: rest2 =>
        let u2 := utf16Unit be c0 c1
        if 0xDC00 ≤ u2 && u2 < 0xE000 then
          (utf16DecodeFrom rest2 (pos + 4) be).map
            ((0x10000 + (u - 0xD800) * 1024 + (u2 - 0xDC00)) :: ·)
        else .error (.malformed pos)
    else .error (.malformed pos)

/-- bytes.decode(encoding="utf-16"): sniff a BOM, default to little-endian. -/
def utf16Decode (l : List Nat) : Except DecErr (List Nat) :=
  match l with
  | 0xFF :: 0xFE :: rest => utf16DecodeFrom rest 2 false
  | 0xFE :: 0xFF :: rest => utf16DecodeFrom rest 2 true
  | _ => utf16DecodeFrom l 0 false

/-- the CPython UTF-32 decoder body after BOM handling. -/
def utf32DecodeFrom (l : List Nat) (pos : Nat) (be : Bool) : Except DecErr (List Nat) :=
  match l with
  | [] => .ok []
  | b0 :: b1 :: b2 :: b3 :: rest =>
    let v :=
      if be then ((b0 * 256 + b1) * 256 + b2) * 256 + b3
      else ((b3 * 256 + b2) * 256 + b1) * 256 + b0
    if 0x110000 ≤ v || (0xD800 ≤ v && v < 0xE000) then .error (.malformed pos)
    else (utf32DecodeFrom rest (pos + 4) be).map (v :: ·)
  | _ => .error (.truncation pos)

/-- bytes.decode(encoding="utf-32"): sniff a 4-byte BOM, default little-endian. -/
def utf32Decode (l : List Nat) : Except DecErr (List Nat) :=
  match l with
  | 0xFF :: 0xFE :: 0x00 :: 0x00 :: rest => utf32DecodeFrom rest 4 false
  | 0x00 :: 0x00 :: 0xFE :: 0xFF :: rest => utf32DecodeFrom rest 4 true
  | _ => utf32DecodeFrom l 0 false

/-- bytes.decode under one of the three encodings. -/
def pyDecode (e : Enc) (l : List Nat) : Except DecErr (List Nat) :=
  match e with
  | .utf8 => utf8DecodeFrom l 0
  | .utf16 => utf16Decode l
  | .utf32 => utf32Decode l

/-- UTF-8 encoding of one scalar value. -/
def utf8EncodeChar (c : Nat) : List Nat :=
  if c < 0x80 then [c]
  else if c < 0x800 then [0xC0 + c / 64, 0x80 + c % 64]
  else if c < 0x10000 then [0xE0 + c / 4096, 0x80 + (c / 64) % 64, 0x80 + c % 64]
  else [0xF0 + c / 262144, 0x80 + (c / 4096) % 64, 0x80 + (c / 64) % 64, 0x80 + c % 64]

/-- UTF-16LE encoding of one scalar value (surrogate pair above 0xFFFF). -/
def utf16EncodeChar (c : Nat) : List Nat :=
  if c < 0x10000 then [c % 256, c / 256]
  else
    let hi := 0xD800 + (c - 0x10000) / 1024
    let lo := 0xDC00 + (c - 0x10000) % 1024
    [hi % 256, hi / 256, lo % 256, lo / 256]

/-- UTF-32LE encoding of one scalar value. -/
def utf32EncodeChar (c : Nat) : List Nat :=
  [c % 256, c / 256 % 256, c / 65536 % 256, c / 16777216 % 256]

/-- str.encode under one of the three encodings.  the CPython "utf-16" and
"utf-32" codecs write a little-endian BOM on every encode call, including
for the empty string. -/
def pyEncode (e : Enc) (cps : List Nat) : List Nat :=
  match e with
  | .utf8 => cps.flatMap utf8EncodeChar
  | .utf16 => 0xFF :: 0xFE :: cps.flatMap utf16EncodeChar
  | .utf32 => 0xFF :: 0xFE :: 0x00 :: 0x00 :: cps.flatMap utf32EncodeChar

/-- UnicodeConverter.count_unicode_braille_chars: number of code points in
the interval 0x2800 <= c < 0x2900. -/
def countUnicodeBrailleChars (cps : List Nat) : Nat :=
  cps.countP (fun c => 0x2800 ≤ c && c < 0x2900)

/-- One iteration of the loop in UnicodeConverter.guess_encoding_of: the
candidate triple (encoding, decoded text, failed flag) appended for each
encoding.  On a truncation failure the clean prefix data[0:ude.start] is
decoded instead; any other failure marks the candidate failed with empty
text. -/
def guessCandidate (e : Enc) (data : List Nat) : Enc × List Nat × Bool :=
  match pyDecode e data with
  | .ok t => (e, t, false)
  | .error (.truncation start) =>
    match pyDecode e (data.take start) with
    | .ok t => (e, t, false)
    | .error _ => (e, [], true)
  | .error (.malformed _) => (e, [], true)

/-- Python max(candidates, key=...) over a head element and the remaining
list: the first element with the maximal key wins, later ties lose. -/
def pyMaxCandidate (key : List Nat → Nat) (c : Enc × List Nat × Bool)
    (rest : List (Enc × List Nat × Bool)) : Enc × List Nat × Bool :=
  rest.foldl (fun best x => if key x.2.1 > key best.2.1 then x else best) c

/-- UnicodeConverter.guess_encoding_of with content_prediction_function =
count_unicode_braille_chars.  Exactly one of the three candidates decodes
viably: return it; none: raise ConverterError; two or more: Python max over
all three candidates (failed ones carry empty text). -/
def guessEncodingOf (data : List Nat) : Except PyErr Enc :=
  let candidates :=
    [guessCandidate .utf8 data, guessCandidate .utf16 data, guessCandidate .utf32 data]
  let options := (candidates.filter (fun c => !c.2.2)).map (fun c => c.1)
  match options with
  | [o] => .ok o
  | [] => .error .converterError
  | _ =>
    match candidates with
    | c :: rest => .ok (pyMaxCandidate countUnicodeBrailleChars c rest).1
    | [] => .error .converterError

/-- The mutable state of a UnicodeConverter instance (shared by
unicode_to_brf and brf_to_unicode): the inherited input buffer, warnings and
closed flag, the encoding configuration from __init__, and the
eight_dot_characters option of unicode_to_brf.  Warnings are recorded by warning code. -/
structure UState where
  inputBuffer : List Nat
  autoEncoding : Bool
  inputEncoding : Option Enc
  outputEncoding : Enc
  eightDotBehavior : String
  warnings : List String
  closed : Bool
deriving DecidableEq, Repr

/-- A fresh UnicodeConverter-family state as built by __init__ from resolved
options. -/
def mkUState (ie : Option Enc) (auto : Bool) (oe : Enc) (ed : String) : UState :=
  { inputBuffer := [], autoEncoding := auto, inputEncoding := ie,
    outputEncoding := oe, eightDotBehavior := ed, warnings := [], closed := false }

/-- UnicodeConverter.unicode_decode.  The fuel bounds the Python recursion
(the clean-prefix retry and the after-guess retry call unicode_decode
recursively); .error .fuelOut stands for the recursion never bottoming out.
.ok (s, none) models the paths on which the Python function falls through
all returns and returns None: a decode failure whose reason is not
truncation, and a truncation failure whose error offset is 0. -/
def unicodeDecode : Nat → UState → List Nat → Except PyErr (UState × Option (List Nat))
  | 0, _, _ => .error .fuelOut
  | fuel + 1, s, data =>
    if data = [] then .ok (s, some [])
    else
      match s.inputEncoding with
      | some enc =>
        let allData := s.inputBuffer ++ data
        match pyDecode enc allData with
        | .ok cps => .ok ({ s with inputBuffer := [] }, some cps)
        | .error (.truncation start) =>
          if 0 < start then
            match unicodeDecode fuel s (allData.take start) with
            | .ok (s1, r) => .ok ({ s1 with inputBuffer := allData.drop start }, r)
            | .error e => .error e
          else .ok (s, none)
        | .error (.malformed _) => .ok (s, none)
      | none =>
        if s.autoEncoding then
          match guessEncodingOf data with
          | .ok e => unicodeDecode fuel { s with inputEncoding := some e } data
          | .error err => .error err
        else .error .converterError

/-- brf_table_bytes and brf_table_chars from converters/brf.py: the byte
values of the 64-character table string. -/
def brfTableBytes : List Nat :=
  [32, 65, 49, 66, 39, 75, 50, 76, 64, 67, 73, 70, 47, 77, 83, 80,
   34, 69, 51, 72, 57, 79, 54, 82, 94, 68, 74, 71, 62, 78, 84, 81,
   44, 42, 53, 60, 45, 85, 56, 86, 46, 37, 91, 36, 43, 88, 33, 38,
   59, 58, 52, 92, 48, 90, 55, 40, 95, 63, 87, 93, 35, 89, 41, 61]

/-- The body of the character loop in unicode_to_brf.convert, as a fold step
over the decoded code points: characters outside the Braille block pass
through, dots-7/8 characters follow the eight_dot_characters policy, 6-dot
characters are looked up in the table. -/
def unicodeToBrfStep (acc : UState × List Nat) (c : Nat) : UState × List Nat :=
  let s := acc.1
  let brf := acc.2
  if c < 0x2800 || 0x2900 ≤ c then (s, brf ++ [c])
  else if 0x2840 ≤ c then
    if s.eightDotBehavior = "warn" then
      ({ s with warnings := s.warnings ++ ["8_to_6_dot_conversion"] }, brf)
    else if s.eightDotBehavior = "delete" then (s, brf)
    else if s.eightDotBehavior = "strip" then
      (s, brf ++ [brfTableBytes.getD ((c - 0x2800) % brfTableBytes.length) 0])
    else if s.eightDotBehavior = "bypass" then (s, brf ++ [c])
    else (s, brf)
  else (s, brf ++ [brfTableBytes.getD (c - 0x2800) 0])

/-- unicode_to_brf.convert: decode the chunk, run the character loop, encode
the result with the output encoding.  Iterating over a None returned by
unicode_decode is a Python TypeError. -/
def unicodeToBrfConvert (fuel : Nat) (s : UState) (data : List Nat) :
    Except PyErr (UState × List Nat) :=
  match unicodeDecode fuel s data with
  | .error e => .error e
  | .ok (_, none) => .error .typeError
  | .ok (s1, some cps) =>
    let r := cps.foldl unicodeToBrfStep (s1, [])
    .ok (r.1, pyEncode r.1.outputEncoding r.2)

/-- the guard of converter.convert_string applied to unicode_to_brf: reject calls
on a closed instance, then delegate to convert. -/
def unicodeToBrfConvertString (fuel : Nat) (s : UState) (data : List Nat) :
    Except PyErr (UState × List Nat) :=
  if s.closed then .error .converterError else unicodeToBrfConvert fuel s data

/-- UnicodeConverter.close as inherited by unicode_to_brf: flush the input
buffer through convert, then mark the instance closed. -/
def unicodeToBrfClose (fuel : Nat) (s : UState) : Except PyErr (UState × List Nat) :=
  let data := s.inputBuffer
  let s0 := { s with inputBuffer := [] }
  match unicodeToBrfConvert fuel s0 data with
  | .ok (s1, out) => .ok ({ s1 with closed := true }, out)
  | .error e => .error e

/-- brf_to_unicode.convert: map each byte through the table (bytes outside
the table pass through as chr(c)), then encode with the output encoding. -/
def brfToUnicodeConvert (s : UState) (brf : List Nat) : UState × List Nat :=
  let cps := brf.map (fun c =>
    if c ∈ brfTableBytes then 0x2800 + brfTableBytes.indexOf c else c)
  (s, pyEncode s.outputEncoding cps)

/-- the guard of converter.convert_string applied to brf_to_unicode. -/
def brfToUnicodeConvertString (s : UState) (brf : List Nat) :
    Except PyErr (UState × List Nat) :=
  if s.closed then .error .converterError else .ok (brfToUnicodeConvert s brf)

/-- brf_to_unicode.close: the override that skips the buffer flush, marks the
instance closed and returns empty bytes. -/
def brfToUnicodeClose (s : UState) : UState × List Nat :=
  ({ s with closed := true }, [])

/-- kwb_to_brf.READABLE_CHARACTERS: the byte values of the allowed set. -/
def kwbReadableChars : List Nat :=
  [10, 13, 32, 33, 34, 35, 36, 37, 38, 39, 40, 41, 42, 43, 44, 45, 46, 47,
   48, 49, 50, 51, 52, 53, 54, 55, 56, 57, 58, 59, 60, 61, 62, 63, 64, 65,
   66, 67, 68, 69, 70, 71, 72, 73, 74, 75, 76, 77, 78, 79, 80, 81, 82, 83,
   84, 85, 86, 87, 88, 89, 90, 91, 92, 93, 94, 95]

/-- bytes.replace with a single-byte pattern: every occurrence of b is
replaced by repl. -/
def byteReplace (b : Nat) (repl : List Nat) (l : List Nat) : List Nat :=
  l.flatMap (fun x => if x = b then repl else [x])

/-- kwb_to_brf.convert_section: reject a run containing any byte outside the
readable set, otherwise replace carriage returns by the configured line-break
string and line feeds by CRLF. -/
def kwbConvertSection (auto : List Nat) (kwb : List Nat) : List Nat :=
  if kwb.all (· ∈ kwbReadableChars) then
    byteReplace 10 [13, 10] (byteReplace 13 auto kwb)
  else []

/-- The mutable state of a kwb_to_brf instance: the accumulated header, the
parsing stage (0 = header, 1 = content, 2 = ended), the inherited input
buffer, warnings (by code) and closed flag, and the line-break replacement
string resolved from the linebreaks option. -/
structure KwbState where
  header : List Nat
  stage : Nat
  inputBuffer : List Nat
  warnings : List String
  closed : Bool
  autolinebreak : List Nat
deriving DecidableEq, Repr

/-- A fresh kwb_to_brf state with the given resolved line-break string
(space policy gives a blank, delete gives the empty string, retain gives
CRLF). -/
def mkKwbState (auto : List Nat) : KwbState :=
  { header := [], stage := 0, inputBuffer := [], warnings := [],
    closed := false, autolinebreak := auto }

/-- kwb_to_brf.convert, with a structural fuel bounding the recursion depth
(the Python recursion consumes at least one input byte per level, so any fuel
above the chunk length is enough; kwbConvert below instantiates it).  Stage 0
accumulates header bytes up to the first section separator 0x1A and recurses
past it; stage 1 cuts content runs at the first text separator 0x02 (checked
before the section separator, whichever occurs in the chunk) or at the
section separator (moving to stage 2), and buffers chunks containing neither;
stage 2 warns about any non-empty data.  Any other stage value raises
ConverterError. -/
def kwbConvertF : Nat → KwbState → List Nat → Except PyErr (KwbState × List Nat)
  | 0, _, _ => .error .fuelOut
  | fuel + 1, s, kwb =>
    if s.stage = 0 then
      if 26 ∈ kwb then
        let i := kwb.indexOf 26
        let hdr := s.header ++ kwb.take i
        let s1 : KwbState :=
          { s with
            header := hdr
            stage := 1
            warnings := s.warnings ++
              (if hdr.length ≠ 512 then ["kwb_format_unexpected"] else []) }
        kwbConvertF fuel s1 (kwb.drop (i + 1))
      else .ok ({ s with header := s.header ++ kwb }, [])
    else if s.stage = 1 then
      if 2 ∈ kwb then
        let i := kwb.indexOf 2
        let converted := kwbConvertSection s.autolinebreak (s.inputBuffer ++ kwb.take i)
        let s1 : KwbState := { s with inputBuffer := [] }
        match kwbConvertF fuel s1 (kwb.drop (i + 1)) with
        | .ok (s2, out) => .ok (s2, converted ++ out)
        | .error e => .error e
      else if 26 ∈ kwb then
        let i := kwb.indexOf 26
        let converted := kwbConvertSection s.autolinebreak (s.inputBuffer ++ kwb.take i)
        let s1 : KwbState := { s with inputBuffer := [], stage := 2 }
        match kwbConvertF fuel s1 (kwb.drop (i + 1)) with
        | .ok (s2, out) => .ok (s2, converted ++ out)
        | .error e => .error e
      else .ok ({ s with inputBuffer := s.inputBuffer ++ kwb }, [])
    else if s.stage = 2 then
      if kwb.length > 0 then
        .ok ({ s with warnings := s.warnings ++ ["kwb_format_unexpected"] }, [])
      else .ok (s, [])
    else .error .converterError

/-- kwb_to_brf.convert: run the state machine with enough fuel for the whole
chunk. -/
def kwbConvert (s : KwbState) (kwb : List Nat) : Except PyErr (KwbState × List Nat) :=
  kwbConvertF (kwb.length + 1) s kwb

/-- the guard of converter.convert_string applied to kwb_to_brf. -/
def kwbConvertString (s : KwbState) (kwb : List Nat) : Except PyErr (KwbState × List Nat) :=
  if s.closed then .error .converterError else kwbConvert s kwb

/-- kwb_to_brf.close: mark closed, then push the input buffer back through
convert if it is non-empty (convert sees the buffer still set, since close
does not clear self.input_buffer before the call). -/
def kwbClose (s : KwbState) : Except PyErr (KwbState × List Nat) :=
  let s1 : KwbState := { s with closed := true }
  if s.inputBuffer ≠ [] then kwbConvert s1 s.inputBuffer else .ok (s1, [])

/-- The state of a converter that only uses the base-class machinery
(brl_to_brf and brf_to_brl carry no state of their own). -/
structure BaseState where
  inputBuffer : List Nat
  warnings : List String
  closed : Bool
deriving DecidableEq, Repr

/-- A fresh base-converter state as built by converter.__init__. -/
def mkBaseState : BaseState :=
  { inputBuffer := [], warnings := [], closed := false }

/-- converter.close, the base-class implementation: raise on a closed
instance, otherwise return empty bytes.  The statement self.closed = True in
the source stands after the return statement and never executes, so the state
is returned unchanged. -/
def baseClose (s : BaseState) : Except PyErr (BaseState × List Nat) :=
  if s.closed then .error .converterError else .ok (s, [])

/-- bytes.upper: ASCII lowercase letters are mapped to uppercase. -/
def byteUpper (b : Nat) : Nat := if 97 ≤ b && b ≤ 122 then b - 32 else b

/-- bytes.lower: ASCII uppercase letters are mapped to lowercase. -/
def byteLower (b : Nat) : Nat := if 65 ≤ b && b ≤ 90 then b + 32 else b

/-- bytes.replace with single-byte pattern and single-byte replacement. -/
def byteSwap (a b x : Nat) : Nat := if x = a then b else x

/-- brl_to_brf.convert: uppercase, then the five byte substitutions. -/
def brlToBrfConvert (brl : List Nat) : List Nat :=
  ((((((brl.map byteUpper).map (byteSwap 125 93)).map (byteSwap 123 91)).map
    (byteSwap 96 64)).map (byteSwap 126 94)).map (byteSwap 124 92))

/-- brf_to_brl.convert: lowercase, then the five byte substitutions. -/
def brfToBrlConvert (brf : List Nat) : List Nat :=
  ((((((brf.map byteLower).map (byteSwap 93 125)).map (byteSwap 91 123)).map
    (byteSwap 64 96)).map (byteSwap 94 126)).map (byteSwap 92 124))

/-- the guard of converter.convert_string applied to brl_to_brf (whose convert
reads no instance state). -/
def brlToBrfConvertString (s : BaseState) (brl : List Nat) :
    Except PyErr (BaseState × List Nat) :=
  if s.closed then .error .converterError else .ok (s, brlToBrfConvert brl)

/-- the guard of converter.convert_string applied to brf_to_brl. -/
def brfToBrlConvertString (s : BaseState) (brf : List Nat) :
    Except PyErr (BaseState × List Nat) :=
  if s.closed then .error .converterError else .ok (s, brfToBrlConvert brf)

/-- converter_chain.close, restricted to the returned bytes: the loop runs
r = c.close() over the members in order, so each close return value of a member
overwrites the previous one, no flush of a member is passed to the converters
after it, and the chain returns only the close value of the last member (empty
bytes for an empty chain).  The argument list holds each close
outcome on its own state; a raised exception propagates and ends the loop. -/
def converterChainCloseBytes (rs : List (Except PyErr (List Nat))) :
    Except PyErr (List Nat) :=
  rs.foldl (fun acc r =>
    match acc with
    | .error e => .error e
    | .ok _ => r) (.ok [])

/-- A converter descriptor as registered in converters/__init__.py: the class
attributes name, source_format and output_format. -/
structure CDesc where
  name : String
  sourceFormat : String
  outputFormat : String
deriving DecidableEq, Repr

/-- Modelled from the spec: the braban module (converters ban_to_unicode and
unicode_to_ban) is referenced by the registry in converters/__init__.py but
its source file is not present in the repository snapshot; following the
format graph of the spec and the naming convention of the sibling bra converters
in bra.py, ban_to_unicode converts format "ban" to "unicode". -/
def banToUnicodeDesc : CDesc :=
  { name := "ban_to_unicode", sourceFormat := "ban", outputFormat := "unicode" }

/-- Modelled from the spec: counterpart of banToUnicodeDesc, converting
"unicode" to "ban". -/
def unicodeToBanDesc : CDesc :=
  { name := "unicode_to_ban", sourceFormat := "unicode", outputFormat := "ban" }

/-- The converters list of converters/__init__.py, in registration order. -/
def registry : List CDesc :=
  [ { name := "brl_to_brf", sourceFormat := "brl", outputFormat := "brf" },
    { name := "brf_to_brl", sourceFormat := "brf", outputFormat := "brl" },
    { name := "kwb_to_brf", sourceFormat := "kwb", outputFormat := "brf" },
    { name := "unicode_to_brf", sourceFormat := "unicode", outputFormat := "brf" },
    { name := "brf_to_unicode", sourceFormat := "brf", outputFormat := "unicode" },
    { name := "helptech_to_unicode", sourceFormat := "helptech", outputFormat := "unicode" },
    { name := "unicode_to_helptech", sourceFormat := "unicode", outputFormat := "helptech" },
    { name := "bra_to_unicode", sourceFormat := "bra", outputFormat := "unicode" },
    { name := "unicode_to_bra", sourceFormat := "unicode", outputFormat := "bra" },
    banToUnicodeDesc,
    unicodeToBanDesc,
    { name := "ldf_to_brf", sourceFormat := "ldf", outputFormat := "brf" },
    { name := "brf_to_ldf", sourceFormat := "brf", outputFormat := "ldf" },
    { name := "pef_to_unicode", sourceFormat := "pef", outputFormat := "unicode" },
    { name := "reflow", sourceFormat := "unicode", outputFormat := "unicode" } ]

/-- source_formats: the source format tags present in the registry (the
Python value is sorted and deduplicated; only membership is used). -/
def sourceFormats : List String := registry.map (·.sourceFormat)

/-- output_formats: the output format tags present in the registry. -/
def outputFormats : List String := registry.map (·.outputFormat)

/-- find_converter_chain from converters/__init__.py, as the list of yielded
chains in generator order, with a structural fuel bounding the recursion
depth (each level adds one name of a not-yet-used registered converter to the
chain, so any fuel above the number of still-available descriptors is enough;
findConverterChain below instantiates it): guard that the requested formats
are registered, then for each registered converter in order, skip names
already in the chain, and for a converter leaving the requested source
format, yield the direct chain when it reaches the output format and then
every extension found by recursing from its output format. -/
def findConverterChainF : Nat → String → String → List String → List (List String)
  | 0, _, _, _ => []
  | fuel + 1, src, out, chain =>
    if src ∈ sourceFormats ∧ out ∈ outputFormats then
      registry.flatMap (fun c =>
        if c.name ∈ chain then []
        else if c.sourceFormat = src then
          (if c.outputFormat = out then [chain ++ [c.name]] else []) ++
            findConverterChainF fuel c.outputFormat out (chain ++ [c.name])
        else [])
    else []

/-- find_converter_chain: run the search with enough fuel for the whole
registry. -/
def findConverterChain (src out : String) (chain : List String) :
    List (List String) :=
  findConverterChainF ((registry.filter (fun d => d.name ∉ chain)).length + 1)
    src out chain

/-- One step of the selection loop in find_converter: replace the current
best chain when the candidate is strictly shorter than the bound and contains
every required converter name. -/
def findConverterStep (req : List String) (acc : List String × Nat)
    (chain : List String) : List String × Nat :=
  if chain.length < acc.2 ∧ req.all (· ∈ chain) then (chain, chain.length)
  else acc

/-- find_converter from converters/__init__.py, restricted to the names of
the selected chain (the Python function wraps them in a factory via
chain_converters): scan the enumerated chains keeping the first strictly
shorter qualifying one, starting from the bound len(converters); return None
when nothing was selected. -/
def findConverter (src out : String) (req : List String) : Option (List String) :=
  let r := (findConverterChain src out []).foldl (findConverterStep req)
    ([], registry.length)
  if r.1.length = 0 then none else some r.1

/-- A unicode_to_brf instance configured with fixed UTF-8 input and the
default UTF-8 output and warn policy. -/
def u2bUtf8State : UState := mkUState (some .utf8) false .utf8 "warn"

/-- A brf_to_unicode instance with the given output_encoding option (its
input encoding option keeps the auto default and is never used). -/
def b2uState (oe : Enc) : UState := mkUState none true oe "warn"

/-- The first member of the failing chain for the chain-close analysis: a
unicode_to_brf instance whose output_encoding option is UTF-16, so that its
close flush is the non-empty UTF-16 BOM. -/
def c1MemberOne : UState := mkUState (some .utf8) false .utf16 "warn"

/-- The C8 round trip: encode the code point as UTF-8, convert through
unicode_to_brf (UTF-8 in and out), feed the BRF bytes to brf_to_unicode
(UTF-8 out); none records a raised exception. -/
def brfRoundTrip (c : Nat) : Option (List Nat) :=
  match unicodeToBrfConvert 3 u2bUtf8State (utf8EncodeChar c) with
  | .ok (_, brf) => some (brfToUnicodeConvert (b2uState .utf8) brf).2
  | .error _ => none

/-- The reverse C8 round trip: one BRF byte through brf_to_unicode, then its
UTF-8 output through unicode_to_brf. -/
def brfRoundTripBack (t : Nat) : Option (List Nat) :=
  match unicodeToBrfConvert 3 u2bUtf8State (brfToUnicodeConvert (b2uState .utf8) [t]).2 with
  | .ok (_, brf) => some brf
  | .error _ => none

/-- A complete single-chunk conversion through kwb_to_brf as the driver runs
it: one convert_string call followed by close, with the byte-stream contract
output (concatenation of the convert and close return values). -/
def kwbRun (s : KwbState) (input : List Nat) : Except PyErr (KwbState × List Nat) :=
  match kwbConvertString s input with
  | .ok (s1, out1) =>
    match kwbClose s1 with
    | .ok (s2, out2) => .ok (s2, out1 ++ out2)
    | .error e => .error e
  | .error e => .error e

/-- Spec wording for C4: the portion of the chunk that decodes cleanly under
an encoding — the whole decoded text when decoding succeeds, the decoded
clean prefix when decoding fails only by truncation, and nothing when
decoding fails for any other reason. -/
def cleanlyDecodablePortion (e : Enc) (data : List Nat) : List Nat :=
  match pyDecode e data with
  | .ok t => t
  | .error (.truncation start) =>
    match pyDecode e (data.take start) with
    | .ok t => t
    | .error _ => []
  | .error (.malformed _) => []

/-- Spec wording for C4: the Braille-range score of a candidate encoding. -/
def brailleScore (e : Enc) (data : List Nat) : Nat :=
  countUnicodeBrailleChars (cleanlyDecodablePortion e data)

/-- The chooser of the claim, word for word: the candidate among UTF-8, UTF-16,
UTF-32 whose cleanly decodable portion holds the most Braille-range code
points, ties broken in the fixed candidate order. -/
def claimChosenEncoding (data : List Nat) : Enc :=
  if brailleScore .utf8 data ≥ brailleScore .utf16 data ∧
      brailleScore .utf8 data ≥ brailleScore .utf32 data then .utf8
  else if brailleScore .utf16 data ≥ brailleScore .utf32 data then .utf16
  else .utf32

/-- Spec wording for C4: an encoding decodes the chunk viably when it decodes
fully or fails only at a truncated tail whose clean prefix decodes. -/
def decodesViably (e : Enc) (data : List Nat) : Bool :=
  match pyDecode e data with
  | .ok _ => true
  | .error (.truncation start) =>
    match pyDecode e (data.take start) with
    | .ok _ => true
    | .error _ => false
  | .error (.malformed _) => false

/-- The amended chooser for C4: when exactly one candidate decodes viably it
is chosen regardless of score; when none does the detection fails; otherwise
the score-and-order rule of the claim applies over all three candidates. -/
def amendedChosenEncoding (data : List Nat) : Option Enc :=
  let v8 := decodesViably .utf8 data
  let v16 := decodesViably .utf16 data
  let v32 := decodesViably .utf32 data
  if v8 && !v16 && !v32 then some .utf8
  else if !v8 && v16 && !v32 then some .utf16
  else if !v8 && !v16 && v32 then some .utf32
  else if !v8 && !v16 && !v32 then none
  else some (claimChosenEncoding data)

/-- A chain of converter names is a path in the registry graph from src to
out: each name is a registered descriptor, consecutive descriptors compose
through their format tags, the first leaves src and the last reaches out. -/
def isChainPath (src out : String) : List String → Bool
  | [] => false
  | [n] => registry.any (fun c => c.name = n && c.sourceFormat = src && c.outputFormat = out)
  | n :: rest =>
    registry.any (fun c => c.name = n && c.sourceFormat = src && isChainPath c.outputFormat out rest)

/-- The registered converter names, in registration order. -/
def registryNames : List String := registry.map (·.name)

/-- Appending a name to the chain only shrinks the filtered list of
still-available descriptors. -/
theorem filter_avail_sublist (l : List CDesc) (chain : List String) (n : String) :
    (l.filter (fun d => d.name ∉ chain ++ [n])).Sublist
      (l.filter (fun d => d.name ∉ chain)) := by
  apply List.monotone_filter_right
  intro d hd
  simp only [decide_eq_true_eq, List.mem_append] at hd ⊢
  intro hmem
  exact hd (Or.inl hmem)

/-- Adding the name of an available descriptor to the chain strictly
decreases the number of available descriptors; this is the termination
measure of the find_converter_chain recursion. -/
theorem filter_avail_strict {c : CDesc} {l : List CDesc} {chain : List String}
    (hc : c ∈ l) (hn : c.name ∉ chain) :
    (l.filter (fun d => d.name ∉ chain ++ [c.name])).length <
      (l.filter (fun d => d.name ∉ chain)).length := by
  induction l with
  | nil => cases hc
  | cons d t ih =>
    rcases List.mem_cons.mp hc with rfl | hct
    · have h1 : (decide (c.name ∉ chain ++ [c.name])) = false := by
        simp
      have h2 : (decide (c.name ∉ chain)) = true := by simpa using hn
      simp only [List.filter_cons, h1, h2, if_false, if_true, List.length_cons]
      exact Nat.lt_succ_of_le (filter_avail_sublist t chain c.name).length_le
    · by_cases hdch : d.name ∈ chain
      · have h1 : (decide (d.name ∉ chain ++ [c.name])) = false := by
          simp [hdch]
        have h2 : (decide (d.name ∉ chain)) = false := by simp [hdch]
        simp only [List.filter_cons, h1, h2, if_false]
        exact ih hct
      · by_cases hdcn : d.name = c.name
        · have h1 : (decide (d.name ∉ chain ++ [c.name])) = false := by
            simp [hdcn]
          have h2 : (decide (d.name ∉ chain)) = true := by simpa using hdch
          simp only [List.filter_cons, h1, h2, if_false, if_true, List.length_cons]
          exact Nat.lt_succ_of_le (filter_avail_sublist t chain c.name).length_le
        · have h1 : (decide (d.name ∉ chain ++ [c.name])) = true := by
            simp [hdch, hdcn]
          have h2 : (decide (d.name ∉ chain)) = true := by simpa using hdch
          simp only [List.filter_cons, h1, h2, if_true, List.length_cons]
          exact Nat.succ_lt_succ (ih hct)

/-- Pointwise equal functions flatMap to the same list. -/
theorem flatMap_congr_aux {α β : Type} {f g : α → List β} :
    ∀ l : List α, (∀ a ∈ l, f a = g a) → l.flatMap f = l.flatMap g := by
  intro l
  induction l with
  | nil => intro _; rfl
  | cons a t ih =>
    intro h
    simp only [List.flatMap_cons]
    rw [h a (List.mem_cons_self a t), ih (fun b hb => h b (List.mem_cons_of_mem a hb))]

/-- Any two sufficient fuel values give the same result, so the fuel is a
proof artifact and kwbConvert agrees with the unbounded Python recursion. -/
theorem kwbConvertF_congr : ∀ (fuel fuel' : Nat) (s : KwbState) (kwb : List Nat),
    kwb.length < fuel → kwb.length < fuel' →
    kwbConvertF fuel s kwb = kwbConvertF fuel' s kwb := by
  intro fuel
  induction fuel with
  | zero => intro fuel' s kwb h _; omega
  | succ f ih =>
    intro fuel' s kwb h h'
    match fuel', h' with
    | f' + 1, h' =>
      simp only [kwbConvertF]
      split_ifs <;>
        first
        | rfl
        | rw [ih f' _ _
            (by simp only [List.length_drop]
                have := List.indexOf_lt_length.mpr (show (26 : Nat) ∈ kwb by assumption)
                omega)
            (by simp only [List.length_drop]
                have := List.indexOf_lt_length.mpr (show (26 : Nat) ∈ kwb by assumption)
                omega)]
        | rw [ih f' _ _
            (by simp only [List.length_drop]
                have := List.indexOf_lt_length.mpr (show (2 : Nat) ∈ kwb by assumption)
                omega)
            (by simp only [List.length_drop]
                have := List.indexOf_lt_length.mpr (show (2 : Nat) ∈ kwb by assumption)
                omega)]

/-- The unbounded unfolding equation of kwb_to_brf.convert: kwbConvert can be
rewritten by its own body with kwbConvert at the recursive positions. -/
theorem kwbConvert_eq (s : KwbState) (kwb : List Nat) :
    kwbConvert s kwb =
      (if s.stage = 0 then
        if 26 ∈ kwb then
          let i := kwb.indexOf 26
          let hdr := s.header ++ kwb.take i
          let s1 : KwbState :=
            { s with
              header := hdr
              stage := 1
              warnings := s.warnings ++
                (if hdr.length ≠ 512 then ["kwb_format_unexpected"] else []) }
          kwbConvert s1 (kwb.drop (i + 1))
        else .ok ({ s with header := s.header ++ kwb }, [])
      else if s.stage = 1 then
        if 2 ∈ kwb then
          let i := kwb.indexOf 2
          let converted := kwbConvertSection s.autolinebreak (s.inputBuffer ++ kwb.take i)
          let s1 : KwbState := { s with inputBuffer := [] }
          match kwbConvert s1 (kwb.drop (i + 1)) with
          | .ok (s2, out) => .ok (s2, converted ++ out)
          | .error e => .error e
        else if 26 ∈ kwb then
          let i := kwb.indexOf 26
          let converted := kwbConvertSection s.autolinebreak (s.inputBuffer ++ kwb.take i)
          let s1 : KwbState := { s with inputBuffer := [], stage := 2 }
          match kwbConvert s1 (kwb.drop (i + 1)) with
          | .ok (s2, out) => .ok (s2, converted ++ out)
          | .error e => .error e
        else .ok ({ s with inputBuffer := s.inputBuffer ++ kwb }, [])
      else if s.stage = 2 then
        if kwb.length > 0 then
          .ok ({ s with warnings := s.warnings ++ ["kwb_format_unexpected"] }, [])
        else .ok (s, [])
      else .error .converterError) := by
  conv_lhs => rw [kwbConvert]
  rw [kwbConvertF]
  simp only [kwbConvert]
  split_ifs <;>
    first
    | rfl
    | (apply kwbConvertF_congr <;>
        (simp only [List.length_drop]
         first
         | (have hx := List.indexOf_lt_length.mpr (show (26 : Nat) ∈ kwb by assumption)
            omega)
         | (have hx := List.indexOf_lt_length.mpr (show (2 : Nat) ∈ kwb by assumption)
            omega)
         | omega))
    | rw [kwbConvertF_congr kwb.length ((kwb.drop (kwb.indexOf 2 + 1)).length + 1) _ _
        (by simp only [List.length_drop]
            have := List.indexOf_lt_length.mpr (show (2 : Nat) ∈ kwb by assumption)
            omega)
        (by simp only [List.length_drop]; omega)]
    | rw [kwbConvertF_congr kwb.length ((kwb.drop (kwb.indexOf 26 + 1)).length + 1) _ _
        (by simp only [List.length_drop]
            have := List.indexOf_lt_length.mpr (show (26 : Nat) ∈ kwb by assumption)
            omega)
        (by simp only [List.length_drop]; omega)]

/-- Any two sufficient fuel values give the same enumeration, so the fuel is
a proof artifact and findConverterChain agrees with the unbounded Python
recursion. -/
theorem findConverterChainF_congr :
    ∀ (fuel fuel' : Nat) (src out : String) (chain : List String),
    (registry.filter (fun d => d.name ∉ chain)).length < fuel →
    (registry.filter (fun d => d.name ∉ chain)).length < fuel' →
    findConverterChainF fuel src out chain = findConverterChainF fuel' src out chain := by
  intro fuel
  induction fuel with
  | zero => intro fuel' src out chain h _; omega
  | succ f ih =>
    intro fuel' src out chain h h'
    match fuel', h' with
    | f' + 1, h' =>
      simp only [findConverterChainF]
      split_ifs
      · apply flatMap_congr_aux
        intro c hc
        by_cases hmem : c.name ∈ chain
        · simp only [hmem, if_true, if_pos]
        · have hlt := filter_avail_strict hc hmem
          simp only [hmem, if_false, if_neg, not_false_iff]
          by_cases hsrc : c.sourceFormat = src
          · simp only [hsrc, if_true, if_pos]
            rw [ih f' _ _ _ (by omega) (by omega)]
          · simp only [hsrc, if_false, if_neg, not_false_iff]
      · rfl

/-- The unbounded unfolding equation of find_converter_chain. -/
theorem findConverterChain_eq (src out : String) (chain : List String) :
    findConverterChain src out chain =
      (if src ∈ sourceFormats ∧ out ∈ outputFormats then
        registry.flatMap (fun c =>
          if c.name ∈ chain then []
          else if c.sourceFormat = src then
            (if c.outputFormat = out then [chain ++ [c.name]] else []) ++
              findConverterChain c.outputFormat out (chain ++ [c.name])
          else [])
      else []) := by
  conv_lhs => rw [findConverterChain]
  rw [findConverterChainF]
  split_ifs
  · apply flatMap_congr_aux
    intro c hc
    by_cases hmem : c.name ∈ chain
    · simp only [hmem, if_true, if_pos]
    · have hlt := filter_avail_strict hc hmem
      simp only [hmem, if_false, if_neg, not_false_iff]
      by_cases hsrc : c.sourceFormat = src
      · simp only [hsrc, if_true, if_pos, findConverterChain]
        rw [findConverterChainF_congr
          ((registry.filter (fun d => d.name ∉ chain)).length)
          ((registry.filter (fun d => d.name ∉ chain ++ [c.name])).length + 1)
          _ _ _ (by omega) (by omega)]
      · simp only [hsrc, if_false, if_neg, not_false_iff]
  · rfl

/-- C10: every decoded character outside the Braille block (below U+2800 or
at or above U+2900) passes through the character loop of unicode_to_brf.convert
unchanged, with the state (and so the warning list) untouched; only Braille
block characters reach the table or the eight-dot policy. -/
theorem c10_unicode_to_brf_passthrough (s : UState) (out : List Nat) (cps : List Nat)
    (h : ∀ c ∈ cps, c < 0x2800 ∨ 0x2900 ≤ c) :
    cps.foldl unicodeToBrfStep (s, out) = (s, out ++ cps) := by
  induction cps generalizing out with
  | nil => simp
  | cons c t ih =>
    have hc := h c (List.mem_cons_self c t)
    have hstep : unicodeToBrfStep (s, out) c = (s, out ++ [c]) := by
      simp only [unicodeToBrfStep]
      rw [if_pos]
      simp only [Bool.or_eq_true, decide_eq_true_eq]
      exact hc
    rw [List.foldl_cons, hstep, ih (out ++ [c]) (fun b hb => h b (List.mem_cons_of_mem c hb))]
    simp

/-- Witness for C10 at a concrete state and character list. -/
theorem c10_witness :
    (∀ c ∈ [65, 0x27FF, 0x2900], c < 0x2800 ∨ 0x2900 ≤ c) ∧
    ([65, 0x27FF, 0x2900].foldl unicodeToBrfStep (u2bUtf8State, []) =
      (u2bUtf8State, [65, 0x27FF, 0x2900])) :=
  ⟨by decide, c10_unicode_to_brf_passthrough u2bUtf8State [] [65, 0x27FF, 0x2900] (by decide)⟩

/-- C8: for every 6-dot Braille code point (U+2800..U+283F), unicode_to_brf
with UTF-8 input and output followed by brf_to_unicode with UTF-8 output
returns the UTF-8 encoding of the original character; the opposite composition
returns the original table byte; and the 64-entry table is injective. -/
theorem c8_brf_round_trip (c : Nat) (h1 : 0x2800 ≤ c) (h2 : c < 0x2840) :
    brfRoundTrip c = some (utf8EncodeChar c) ∧
    brfRoundTripBack (brfTableBytes.getD (c - 0x2800) 0) =
      some [brfTableBytes.getD (c - 0x2800) 0] ∧
    brfTableBytes.Nodup := by
  have key1 : ∀ i < 64, brfRoundTrip (0x2800 + i) = some (utf8EncodeChar (0x2800 + i)) := by
    decide
  have key2 : ∀ i < 64, brfRoundTripBack (brfTableBytes.getD i 0) =
      some [brfTableBytes.getD i 0] := by decide
  have hceq : 0x2800 + (c - 0x2800) = c := by omega
  refine ⟨?_, ?_, by decide⟩
  · have := key1 (c - 0x2800) (by omega)
    rwa [hceq] at this
  · exact key2 (c - 0x2800) (by omega)

/-- Witness for C8 at U+2801. -/
theorem c8_witness :
    0x2800 ≤ 0x2801 ∧ 0x2801 < 0x2840 ∧
    brfRoundTrip 0x2801 = some (utf8EncodeChar 0x2801) :=
  ⟨by decide, by decide, (c8_brf_round_trip 0x2801 (by decide) (by decide)).1⟩

/-- C9 (code bug): a zero-length convert call is not a no-op for
brf_to_unicode when the output encoding is UTF-16 or UTF-32 — the Python
str.encode function writes a BOM on every call, so convert of empty bytes returns the
BOM instead of empty bytes. -/
theorem c9_empty_chunk_emits_bom :
    brfToUnicodeConvertString (b2uState .utf16) [] = .ok (b2uState .utf16, [255, 254]) ∧
    brfToUnicodeConvertString (b2uState .utf32) [] =
      .ok (b2uState .utf32, [255, 254, 0, 0]) ∧
    ([255, 254] : List Nat) ≠ [] ∧
    brfToUnicodeConvertString (b2uState .utf8) [] = .ok (b2uState .utf8, []) :=
  ⟨rfl, rfl, by decide, rfl⟩

/-- C6 (code bug): the base converter.close returns before its
self.closed = True line, so the instance stays open: after close on a fresh
brl_to_brf state, the closed flag is still false, convert_string still
succeeds, and a second close still succeeds; kwb_to_brf.close on an already
closed instance also succeeds instead of raising. -/
theorem c6_close_does_not_mark_closed :
    baseClose mkBaseState = .ok (mkBaseState, []) ∧
    mkBaseState.closed = false ∧
    brlToBrfConvertString mkBaseState [104, 105] = .ok (mkBaseState, [72, 73]) ∧
    kwbClose { mkKwbState [32] with closed := true } =
      .ok ({ mkKwbState [32] with closed := true }, []) :=
  ⟨rfl, rfl, rfl, rfl⟩

/-- C5 (code bug): with a fixed UTF-8 encoding, unicode_decode on malformed
input (0xFF, an invalid start byte) falls through every return and yields
Python None instead of raising, so the calling convert dies with a TypeError;
the zero-viable-candidates branch of guess_encoding_of does raise. -/
theorem c5_malformed_decode_returns_none :
    unicodeDecode 5 u2bUtf8State [255] = .ok (u2bUtf8State, none) ∧
    unicodeToBrfConvert 5 u2bUtf8State [255] = .error .typeError ∧
    guessEncodingOf [0, 220, 255, 255] = .error .converterError :=
  ⟨rfl, rfl, rfl⟩

/-- C2 (code bug): chunk-boundary invariance fails for unicode_to_brf with a
fixed UTF-8 encoding: the whole character U+2801 in one chunk converts to "A"
and close flushes nothing, but the first byte of the same character alone
makes unicode_decode return None (truncation error at offset 0), crashing
convert with a TypeError instead of buffering the tail. -/
theorem c2_chunk_split_crashes :
    unicodeToBrfConvertString 5 u2bUtf8State [226, 160, 129] = .ok (u2bUtf8State, [65]) ∧
    unicodeToBrfClose 5 u2bUtf8State = .ok ({ u2bUtf8State with closed := true }, []) ∧
    unicodeToBrfConvertString 5 u2bUtf8State [226] = .error .typeError :=
  ⟨rfl, rfl, rfl⟩

/-- C1 (code bug): converter_chain.close overwrites r with the close value
of each member, so a chain of unicode_to_brf (UTF-16 output option, whose close
flushes the non-empty BOM) followed by brf_to_brl returns empty bytes from
close, dropping the flush instead of feeding it through the second member,
which would have produced those bytes unchanged. -/
theorem c1_chain_close_drops_flush :
    unicodeToBrfClose 5 c1MemberOne = .ok ({ c1MemberOne with closed := true }, [255, 254]) ∧
    converterChainCloseBytes [.ok [255, 254], .ok []] = .ok [] ∧
    baseClose mkBaseState = .ok (mkBaseState, []) ∧
    brfToBrlConvertString mkBaseState [255, 254] = .ok (mkBaseState, [255, 254]) ∧
    ([] : List Nat) ≠ [255, 254] :=
  ⟨rfl, rfl, rfl, rfl, by decide⟩

theorem kwbIdx (l1 l2 : List Nat) (a : Nat) (h : a ∉ l1) :
    (l1 ++ a :: l2).indexOf a = l1.length := by
  rw [List.indexOf_append_of_not_mem h, List.indexOf_cons_self]
  omega

theorem kwbTake (l1 l2 : List Nat) (a : Nat) : (l1 ++ a :: l2).take l1.length = l1 := by
  induction l1 with
  | nil => rfl
  | cons b t ih => simp [ih]

theorem kwbDrop (l1 l2 : List Nat) (a : Nat) : (l1 ++ a :: l2).drop (l1.length + 1) = l2 := by
  induction l1 with
  | nil => rfl
  | cons b t ih => simpa using ih

theorem kwbConvert_stage0 (s : KwbState) (h0 : s.stage = 0) (l1 l2 : List Nat)
    (h : 26 ∉ l1) :
    kwbConvert s (l1 ++ 26 :: l2) =
      kwbConvert
        { s with
          header := s.header ++ l1
          stage := 1
          warnings := s.warnings ++
            (if (s.header ++ l1).length ≠ 512 then ["kwb_format_unexpected"] else []) }
        l2 := by
  rw [kwbConvert_eq]
  rw [if_pos h0, if_pos (show (26 : Nat) ∈ l1 ++ 26 :: l2 by simp)]
  simp only [kwbIdx l1 l2 26 h, kwbTake, kwbDrop]

theorem kwbConvert_stage1_text (s : KwbState) (h1 : s.stage = 1) (l1 l2 : List Nat)
    (h2 : 2 ∉ l1) :
    kwbConvert s (l1 ++ 2 :: l2) =
      (match kwbConvert { s with inputBuffer := [] } l2 with
       | .ok (s2, out) =>
         .ok (s2, kwbConvertSection s.autolinebreak (s.inputBuffer ++ l1) ++ out)
       | .error e => .error e) := by
  rw [kwbConvert_eq]
  rw [if_neg (by omega : ¬ s.stage = 0), if_pos h1,
    if_pos (show (2 : Nat) ∈ l1 ++ 2 :: l2 by simp)]
  simp only [kwbIdx l1 l2 2 h2, kwbTake, kwbDrop]

theorem kwbConvert_stage1_section (s : KwbState) (h1 : s.stage = 1) (l1 l2 : List Nat)
    (h2l1 : 2 ∉ l1) (h2l2 : 2 ∉ l2) (h26 : 26 ∉ l1) :
    kwbConvert s (l1 ++ 26 :: l2) =
      (match kwbConvert { s with inputBuffer := [], stage := 2 } l2 with
       | .ok (s2, out) =>
         .ok (s2, kwbConvertSection s.autolinebreak (s.inputBuffer ++ l1) ++ out)
       | .error e => .error e) := by
  rw [kwbConvert_eq]
  rw [if_neg (by omega : ¬ s.stage = 0), if_pos h1,
    if_neg (show ¬ (2 : Nat) ∈ l1 ++ 26 :: l2 by simp [h2l1, h2l2]),
    if_pos (show (26 : Nat) ∈ l1 ++ 26 :: l2 by simp)]
  simp only [kwbIdx l1 l2 26 h26, kwbTake, kwbDrop]

theorem kwbConvert_stage2 (s : KwbState) (h2 : s.stage = 2) (l : List Nat) :
    kwbConvert s l =
      .ok (if 0 < l.length then
        { s with warnings := s.warnings ++ ["kwb_format_unexpected"] } else s, []) := by
  rw [kwbConvert_eq]
  rw [if_neg (by omega : ¬ s.stage = 0), if_neg (by omega : ¬ s.stage = 1), if_pos h2]
  by_cases hl : 0 < l.length
  · rw [if_pos (by omega : l.length > 0), if_pos hl]
  · rw [if_neg (by omega : ¬ l.length > 0), if_neg hl]

/-- C7 (amended): a synthetic kwb_to_brf input of header, section separator,
the printable run HELLO-CR-LF ended by the text separator, a binary run, and
the end-of-content separator followed by trailing bytes free of the text
separator, emits exactly the printable run converted per the line-break
policy (space keeps a blank, delete drops the marker, retain doubles it), the
binary run contributes no bytes, a header whose length differs from 512 adds
a warning and is never fatal, and non-empty trailing bytes add a warning and
are never fatal, the conversion completing normally. -/
theorem c7_amended (auto hdr bin trail : List Nat)
    (h26hdr : 26 ∉ hdr) (hbin2 : 2 ∉ bin) (hbin26 : 26 ∉ bin)
    (hbinbad : bin.all (· ∈ kwbReadableChars) = false) (htrail2 : 2 ∉ trail) :
    kwbRun (mkKwbState auto)
      (hdr ++ 26 :: ([72, 69, 76, 76, 79, 13, 10] ++ 2 :: (bin ++ 26 :: trail))) =
      .ok ({ header := hdr, stage := 2, inputBuffer := [],
             warnings :=
               (if hdr.length ≠ 512 then ["kwb_format_unexpected"] else []) ++
                 (if 0 < trail.length then ["kwb_format_unexpected"] else []),
             closed := true, autolinebreak := auto },
           kwbConvertSection auto [72, 69, 76, 76, 79, 13, 10]) ∧
    kwbConvertSection [32] [72, 69, 76, 76, 79, 13, 10] = [72, 69, 76, 76, 79, 32, 13, 10] ∧
    kwbConvertSection [] [72, 69, 76, 76, 79, 13, 10] = [72, 69, 76, 76, 79, 13, 10] ∧
    kwbConvertSection [13, 10] [72, 69, 76, 76, 79, 13, 10] =
      [72, 69, 76, 76, 79, 13, 13, 10, 13, 10] ∧
    kwbConvertSection auto bin = [] := by
  refine ⟨?_, by decide, by decide, by decide, by simp [kwbConvertSection, hbinbad]⟩
  simp only [kwbRun, kwbConvertString, mkKwbState]
  rw [if_neg (by decide : ¬ (false = true))]
  rw [kwbConvert_stage0 _ rfl hdr _ h26hdr]
  simp only [List.nil_append]
  rw [kwbConvert_stage1_text _ rfl [72, 69, 76, 76, 79, 13, 10] _ (by decide)]
  rw [kwbConvert_stage1_section _ rfl bin trail hbin2 htrail2 hbin26]
  rw [kwbConvert_stage2 _ rfl trail]
  by_cases htr : 0 < trail.length
  · simp [kwbClose, kwbConvertSection, hbinbad, htr]
  · simp [kwbClose, kwbConvertSection, hbinbad, htr]


theorem kwbConvert_stage1_buffer (s : KwbState) (h1 : s.stage = 1) (l : List Nat)
    (h2 : 2 ∉ l) (h26 : 26 ∉ l) :
    kwbConvert s l = .ok ({ s with inputBuffer := s.inputBuffer ++ l }, []) := by
  rw [kwbConvert_eq]
  rw [if_neg (by omega : ¬ s.stage = 0), if_pos h1, if_neg h2, if_neg h26]

set_option maxRecDepth 8000 in
/-- Counterexample for C7 as stated: with a correct 512-byte header and
trailing bytes equal to the text separator 0x02 after the end-of-content
separator, the parser never leaves the content stage, so the non-empty
trailing data produces no warning at all (the warning list stays empty),
contradicting the claim that any non-empty bytes after the end-of-content
boundary produce a warning. -/
theorem c7_counterexample :
    kwbRun (mkKwbState [32])
      (List.replicate 512 65 ++
        26 :: ([72, 69, 76, 76, 79, 13, 10] ++ 2 :: ([0] ++ 26 :: [2]))) =
      .ok ({ header := List.replicate 512 65, stage := 1, inputBuffer := [],
             warnings := [], closed := true, autolinebreak := [32] },
           [72, 69, 76, 76, 79, 32, 13, 10]) ∧
    ("kwb_format_unexpected" ∈ ([] : List String)) = False := by
  refine ⟨?_, by simp⟩
  simp only [kwbRun, kwbConvertString, mkKwbState]
  rw [if_neg (by decide : ¬ (false = true))]
  rw [kwbConvert_stage0 _ rfl (List.replicate 512 65) _
    (by simp [List.mem_replicate])]
  simp only [List.nil_append, List.length_replicate]
  rw [if_neg (by omega : ¬ (512 : Nat) ≠ 512)]
  rw [kwbConvert_stage1_text _ rfl [72, 69, 76, 76, 79, 13, 10] _ (by decide)]
  rw [show ([0] ++ 26 :: [2] : List Nat) = [0, 26] ++ 2 :: [] by rfl]
  rw [kwbConvert_stage1_text _ rfl [0, 26] [] (by decide)]
  rw [kwbConvert_stage1_buffer _ rfl [] (by decide) (by decide)]
  simp [kwbClose, kwbConvertSection]
  decide

/-- Witness for C7 at concrete values: a one-byte header (warning), a
one-byte binary run, and a trailing separator byte (warning), with the space
policy. -/
theorem c7_amended_witness :
    kwbRun (mkKwbState [32])
      ([65] ++ 26 :: ([72, 69, 76, 76, 79, 13, 10] ++ 2 :: ([0] ++ 26 :: [26]))) =
      .ok ({ header := [65], stage := 2, inputBuffer := [],
             warnings := ["kwb_format_unexpected", "kwb_format_unexpected"],
             closed := true, autolinebreak := [32] },
           [72, 69, 76, 76, 79, 32, 13, 10]) := by
  rw [(c7_amended [32] [65] [0] [26] (by decide) (by decide) (by decide) (by decide)
    (by decide)).1]
  rfl

theorem guessCandidate_eq (e : Enc) (data : List Nat) :
    guessCandidate e data = (e, cleanlyDecodablePortion e data, !decodesViably e data) := by
  simp only [guessCandidate, cleanlyDecodablePortion, decodesViably]
  rcases hp : pyDecode e data with err | t
  · rcases err with s | s
    · rcases hq : pyDecode e (data.take s) with e2 | t2 <;> simp [hq]
    · rfl
  · rfl

theorem pyMax3_fst (k : List Nat → Nat) (t8 t16 t32 : List Nat) (b8 b16 b32 : Bool) :
    (pyMaxCandidate k (.utf8, t8, b8) [(.utf16, t16, b16), (.utf32, t32, b32)]).1 =
      (if k t8 ≥ k t16 ∧ k t8 ≥ k t32 then Enc.utf8
       else if k t16 ≥ k t32 then Enc.utf16
       else Enc.utf32) := by
  simp only [pyMaxCandidate, List.foldl_cons, List.foldl_nil]
  by_cases h1 : k t16 > k t8
  · rw [if_pos h1]
    by_cases h2 : k t32 > k t16
    · rw [if_pos h2, if_neg (by omega : ¬(k t8 ≥ k t16 ∧ k t8 ≥ k t32)),
        if_neg (by omega : ¬ k t16 ≥ k t32)]
    · rw [if_neg h2, if_neg (by omega : ¬(k t8 ≥ k t16 ∧ k t8 ≥ k t32)),
        if_pos (by omega : k t16 ≥ k t32)]
  · rw [if_neg h1]
    by_cases h2 : k t32 > k t8
    · rw [if_pos h2, if_neg (by omega : ¬(k t8 ≥ k t16 ∧ k t8 ≥ k t32)),
        if_neg (by omega : ¬ k t16 ≥ k t32)]
    · rw [if_neg h2, if_pos (by omega : k t8 ≥ k t16 ∧ k t8 ≥ k t32)]

theorem c4_guess_refines_amended (data : List Nat) :
    guessEncodingOf data =
      (match amendedChosenEncoding data with
       | some e => .ok e
       | none => .error .converterError) := by
  simp only [guessEncodingOf, guessCandidate_eq, amendedChosenEncoding]
  cases hv8 : decodesViably .utf8 data <;>
    cases hv16 : decodesViably .utf16 data <;>
      cases hv32 : decodesViably .utf32 data <;>
        simp only [Bool.not_true, Bool.not_false, List.filter_cons, List.filter_nil,
          Bool.not_eq_true, if_true, if_false, List.map_cons, List.map_nil,
          Bool.and_self, Bool.and_true, Bool.and_false, Bool.true_and, Bool.false_and,
          Bool.not_eq_false, pyMax3_fst, claimChosenEncoding, brailleScore] <;>
        rfl

theorem unicodeDecode_keeps_encoding :
    ∀ (fuel : Nat) (s : UState) (data : List Nat) (s1 : UState) (r : Option (List Nat))
      (e : Enc), s.inputEncoding = some e →
      unicodeDecode fuel s data = .ok (s1, r) → s1.inputEncoding = some e := by
  intro fuel
  induction fuel with
  | zero => intro s data s1 r e _ h; cases h
  | succ f ih =>
    intro s data s1 r e henc h
    rw [unicodeDecode] at h
    by_cases hdata : data = []
    · rw [if_pos hdata] at h
      cases h
      exact henc
    · rw [if_neg hdata, henc] at h
      simp only [] at h
      rcases hres : pyDecode e (s.inputBuffer ++ data) with err | cps
      · rcases err with start | start
        · rw [hres] at h
          simp only [] at h
          by_cases hstart : 0 < start
          · rw [if_pos hstart] at h
            rcases hrec : unicodeDecode f s ((s.inputBuffer ++ data).take start) with
              e2 | pair
            · rw [hrec] at h; cases h
            · rcases pair with ⟨s2, r2⟩
              rw [hrec] at h
              simp only [] at h
              cases h
              exact ih s _ s2 _ e henc hrec
          · rw [if_neg hstart] at h
            cases h
            exact henc
        · rw [hres] at h
          simp only [] at h
          cases h
          exact henc
      · rw [hres] at h
        simp only [] at h
        cases h
        rfl

theorem unicodeDecode_auto_guesses :
    ∀ (fuel : Nat) (s : UState) (data : List Nat) (e : Enc),
      s.inputEncoding = none → s.autoEncoding = true → data ≠ [] →
      guessEncodingOf data = .ok e →
      unicodeDecode (fuel + 1) s data =
        unicodeDecode fuel { s with inputEncoding := some e } data := by
  intro fuel s data e henc hauto hdata hguess
  rw [unicodeDecode]
  rw [if_neg hdata, henc]
  simp only [] 
  rw [hauto]
  simp only [if_true]
  rw [hguess]

/-- C4 (amended): the encoding chosen for the first non-empty chunk is the
unique viable candidate when exactly one of UTF-8, UTF-16, UTF-32 decodes
viably; with no viable candidate detection raises; otherwise it is the
candidate whose cleanly decodable portion holds the most Braille-range code
points, ties broken in the order UTF-8, UTF-16, UTF-32 over all three
candidates; an auto-mode decode installs the guessed encoding and a decode
under an already fixed encoding never changes it (frozen for the remaining
lifetime). -/
theorem c4_encoding_guess_amended :
    (∀ data : List Nat, guessEncodingOf data =
      (match amendedChosenEncoding data with
       | some e => .ok e
       | none => .error .converterError)) ∧
    (∀ (fuel : Nat) (s : UState) (data : List Nat) (e : Enc),
      s.inputEncoding = none → s.autoEncoding = true → data ≠ [] →
      guessEncodingOf data = .ok e →
      unicodeDecode (fuel + 1) s data =
        unicodeDecode fuel { s with inputEncoding := some e } data) ∧
    (∀ (fuel : Nat) (s : UState) (data : List Nat) (s1 : UState)
      (r : Option (List Nat)) (e : Enc), s.inputEncoding = some e →
      unicodeDecode fuel s data = .ok (s1, r) → s1.inputEncoding = some e) :=
  ⟨c4_guess_refines_amended, unicodeDecode_auto_guesses, unicodeDecode_keeps_encoding⟩

/-- Counterexample for C4 as stated: on the four bytes FF FF 11 00 only
UTF-16 decodes viably and all three Braille scores are zero, so the claimed
tie-break (first candidate order) would choose UTF-8, but the code returns
the single viable candidate UTF-16 and freezes it. -/
theorem c4_counterexample :
    guessEncodingOf [255, 255, 17, 0] = .ok .utf16 ∧
    claimChosenEncoding [255, 255, 17, 0] = .utf8 ∧
    Enc.utf16 ≠ Enc.utf8 ∧
    unicodeDecode 5 (mkUState none true .utf8 "warn") [255, 255, 17, 0] =
      .ok ({ mkUState none true .utf8 "warn" with inputEncoding := some .utf16 },
        some [65535, 17]) :=
  ⟨rfl, rfl, by decide, rfl⟩

/-- Witness for C4 at the claimed concrete scenario: ten bytes that are
valid UTF-16 with five Braille characters and also valid UTF-8 with none;
the guesser selects UTF-16, the auto decode installs it, and a decode under
the fixed encoding keeps it. -/
theorem c4_amended_witness :
    unicodeDecode 5 (mkUState none true .utf8 "warn")
        [1, 40, 1, 40, 1, 40, 1, 40, 1, 40] =
      unicodeDecode 4 { mkUState none true .utf8 "warn" with inputEncoding := some .utf16 }
        [1, 40, 1, 40, 1, 40, 1, 40, 1, 40] ∧
    guessEncodingOf [1, 40, 1, 40, 1, 40, 1, 40, 1, 40] = .ok .utf16 ∧
    ({ mkUState none true .utf8 "warn" with
        inputEncoding := some Enc.utf16 } : UState).inputEncoding = some .utf16 := by
  refine ⟨?_, by rfl, ?_⟩
  · exact c4_encoding_guess_amended.2.1 4 _ _ .utf16 rfl rfl (by decide) (by rfl)
  · exact c4_encoding_guess_amended.2.2 5
      { mkUState none true .utf8 "warn" with inputEncoding := some Enc.utf16 }
      [1, 40, 1, 40, 1, 40, 1, 40, 1, 40]
      { mkUState none true .utf8 "warn" with inputEncoding := some Enc.utf16 }
      (some [10241, 10241, 10241, 10241, 10241]) .utf16 rfl (by rfl)

theorem isChainPath_single (src out n : String) :
    isChainPath src out [n] =
      registry.any (fun c => c.name = n && c.sourceFormat = src && c.outputFormat = out) := rfl

theorem isChainPath_cons (src out n m : String) (rest : List String) :
    isChainPath src out (n :: m :: rest) =
      registry.any (fun c =>
        c.name = n && c.sourceFormat = src && isChainPath c.outputFormat out (m :: rest)) := rfl

theorem path_out_mem : ∀ (p : List String) (src out : String),
    isChainPath src out p = true → out ∈ outputFormats := by
  intro p
  induction p with
  | nil => intro src out h; cases h
  | cons n rest ih =>
    intro src out h
    match rest, h with
    | [], h =>
      rw [isChainPath_single, List.any_eq_true] at h
      obtain ⟨c, hc, hp⟩ := h
      simp only [Bool.and_eq_true, decide_eq_true_eq] at hp
      exact hp.2 ▸ List.mem_map_of_mem (·.outputFormat) hc
    | m :: rest2, h =>
      rw [isChainPath_cons, List.any_eq_true] at h
      obtain ⟨c, hc, hp⟩ := h
      simp only [Bool.and_eq_true, decide_eq_true_eq] at hp
      exact ih c.outputFormat out hp.2

theorem path_src_mem : ∀ (p : List String) (src out : String),
    isChainPath src out p = true → src ∈ sourceFormats := by
  intro p src out h
  match p, h with
  | [n], h =>
    rw [isChainPath_single, List.any_eq_true] at h
    obtain ⟨c, hc, hp⟩ := h
    simp only [Bool.and_eq_true, decide_eq_true_eq] at hp
    exact hp.1.2 ▸ List.mem_map_of_mem (·.sourceFormat) hc
  | n :: m :: rest, h =>
    rw [isChainPath_cons, List.any_eq_true] at h
    obtain ⟨c, hc, hp⟩ := h
    simp only [Bool.and_eq_true, decide_eq_true_eq] at hp
    exact hp.1.2 ▸ List.mem_map_of_mem (·.sourceFormat) hc

theorem path_names_mem : ∀ (p : List String) (src out : String),
    isChainPath src out p = true → ∀ n ∈ p, n ∈ registryNames := by
  intro p
  induction p with
  | nil => intro src out h; cases h
  | cons n rest ih =>
    intro src out h a ha
    match rest, h with
    | [], h =>
      rw [isChainPath_single, List.any_eq_true] at h
      obtain ⟨c, hc, hp⟩ := h
      simp only [Bool.and_eq_true, decide_eq_true_eq] at hp
      rcases List.mem_cons.mp ha with rfl | ha2
      · exact hp.1.1 ▸ List.mem_map_of_mem (·.name) hc
      · cases ha2
    | m :: rest2, h =>
      rw [isChainPath_cons, List.any_eq_true] at h
      obtain ⟨c, hc, hp⟩ := h
      simp only [Bool.and_eq_true, decide_eq_true_eq] at hp
      rcases List.mem_cons.mp ha with rfl | ha2
      · exact hp.1.1 ▸ List.mem_map_of_mem (·.name) hc
      · exact ih c.outputFormat out hp.2 a ha2

theorem no_source_only_tail (nm fmt : String)
    (hfmt : ∀ c ∈ registry, c.name = nm → c.sourceFormat = fmt)
    (hout : fmt ∉ outputFormats) :
    ∀ (p : List String) (src out : String), src ∈ outputFormats →
      isChainPath src out p = true → nm ∉ p := by
  intro p
  induction p with
  | nil => intro src out _ h; cases h
  | cons n rest ih =>
    intro src out hsrc h hmem
    match rest, h with
    | [], h =>
      rw [isChainPath_single, List.any_eq_true] at h
      obtain ⟨c, hc, hp⟩ := h
      simp only [Bool.and_eq_true, decide_eq_true_eq] at hp
      rcases List.mem_cons.mp hmem with rfl | hm2
      · exact hout (hfmt c hc hp.1.1 ▸ hp.1.2 ▸ hsrc)
      · cases hm2
    | m :: rest2, h =>
      rw [isChainPath_cons, List.any_eq_true] at h
      obtain ⟨c, hc, hp⟩ := h
      simp only [Bool.and_eq_true, decide_eq_true_eq] at hp
      rcases List.mem_cons.mp hmem with rfl | hm2
      · exact hout (hfmt c hc hp.1.1 ▸ hp.1.2 ▸ hsrc)
      · exact ih c.outputFormat out (List.mem_map_of_mem (·.outputFormat) hc) hp.2 hm2

theorem not_both_kwb_pef : ∀ (p : List String) (src out : String),
    isChainPath src out p = true →
    ¬("kwb_to_brf" ∈ p ∧ "pef_to_unicode" ∈ p) := by
  have hkwb : ∀ c ∈ registry, c.name = "kwb_to_brf" → c.sourceFormat = "kwb" := by decide
  have hpef : ∀ c ∈ registry, c.name = "pef_to_unicode" → c.sourceFormat = "pef" := by decide
  have hkwbout : "kwb" ∉ outputFormats := by decide
  have hpefout : "pef" ∉ outputFormats := by decide
  intro p src out h ⟨hk, hp⟩
  match p, h with
  | [n], h =>
    rcases List.mem_cons.mp hk with rfl | hk2
    · rcases List.mem_cons.mp hp with heq | hp2
      · exact absurd heq (by decide)
      · cases hp2
    · cases hk2
  | n :: m :: rest, h =>
    rw [isChainPath_cons, List.any_eq_true] at h
    obtain ⟨c, hc, hcp⟩ := h
    simp only [Bool.and_eq_true, decide_eq_true_eq] at hcp
    have houtmem : c.outputFormat ∈ outputFormats :=
      List.mem_map_of_mem (·.outputFormat) hc
    by_cases hkc : "kwb_to_brf" ∈ m :: rest
    · exact no_source_only_tail "kwb_to_brf" "kwb" hkwb hkwbout (m :: rest)
        c.outputFormat out houtmem hcp.2 hkc
    · have hkn : n = "kwb_to_brf" := by
        rcases List.mem_cons.mp hk with rfl | hk2
        · rfl
        · exact absurd hk2 hkc
      have hpm : "pef_to_unicode" ∈ m :: rest := by
        rcases List.mem_cons.mp hp with heq | hp2
        · rw [← heq] at hkn
          exact absurd hkn (by decide)
        · exact hp2
      exact no_source_only_tail "pef_to_unicode" "pef" hpef hpefout (m :: rest)
        c.outputFormat out houtmem hcp.2 hpm

theorem registryNames_nodup : registryNames.Nodup := by decide

theorem path_len_lt (p : List String) (src out : String)
    (h : isChainPath src out p = true) (hnd : p.Nodup) : p.length < registry.length := by
  have hsub : ∀ n ∈ p, n ∈ registryNames := path_names_mem p src out h
  have hsubf : p.toFinset ⊆ registryNames.toFinset := by
    intro a ha
    exact List.mem_toFinset.mpr (hsub a (List.mem_toFinset.mp ha))
  have hcard : p.toFinset.card = p.length := List.toFinset_card_of_nodup hnd
  have hcardr : registryNames.toFinset.card = registry.length := by decide
  have hle : p.length ≤ registry.length := by
    have := Finset.card_le_card hsubf
    omega
  rcases Nat.lt_or_ge p.length registry.length with hlt | hge
  · exact hlt
  · exfalso
    have heq : p.toFinset = registryNames.toFinset :=
      Finset.eq_of_subset_of_card_le hsubf (by omega)
    have hkmem : "kwb_to_brf" ∈ p := by
      rw [← List.mem_toFinset, heq, List.mem_toFinset]
      decide
    have hpmem : "pef_to_unicode" ∈ p := by
      rw [← List.mem_toFinset, heq, List.mem_toFinset]
      decide
    exact not_both_kwb_pef p src out h ⟨hkmem, hpmem⟩

theorem fcc_sound : ∀ (n : Nat) (chain : List String) (src out : String) (p : List String),
    (registry.filter (fun d => d.name ∉ chain)).length ≤ n →
    p ∈ findConverterChain src out chain → chain.Nodup →
    ∃ suffix, p = chain ++ suffix ∧ isChainPath src out suffix = true ∧ p.Nodup := by
  intro n
  induction n with
  | zero =>
    intro chain src out p hn hp _
    rw [findConverterChain_eq] at hp
    exfalso
    have hall : ∀ c ∈ registry, c.name ∈ chain := by
      intro c hc
      by_contra hcn
      have hmem : c ∈ registry.filter (fun d => d.name ∉ chain) :=
        List.mem_filter.mpr ⟨hc, by simpa using hcn⟩
      have hpos : 0 < (registry.filter (fun d => d.name ∉ chain)).length :=
        List.length_pos_of_mem hmem
      omega
    by_cases hguard : src ∈ sourceFormats ∧ out ∈ outputFormats
    · rw [if_pos hguard] at hp
      obtain ⟨c, hc, hmem⟩ := List.mem_flatMap.mp hp
      rw [if_pos (hall c hc)] at hmem
      cases hmem
    · rw [if_neg hguard] at hp
      cases hp
  | succ k ih =>
    intro chain src out p hn hp hnd
    rw [findConverterChain_eq] at hp
    by_cases hguard : src ∈ sourceFormats ∧ out ∈ outputFormats
    · rw [if_pos hguard] at hp
      obtain ⟨c, hc, hmem⟩ := List.mem_flatMap.mp hp
      by_cases hcn : c.name ∈ chain
      · rw [if_pos hcn] at hmem
        cases hmem
      · rw [if_neg hcn] at hmem
        by_cases hsrc : c.sourceFormat = src
        · rw [if_pos hsrc] at hmem
          have hnd2 : (chain ++ [c.name]).Nodup := by
            rw [List.nodup_append]
            exact ⟨hnd, List.nodup_singleton _, by
              intro a ha hb
              rw [List.mem_singleton] at hb
              exact hcn (hb ▸ ha)⟩
          rcases List.mem_append.mp hmem with hdir | hrec
          · by_cases hout : c.outputFormat = out
            · rw [if_pos hout] at hdir
              have hpe : p = chain ++ [c.name] := List.mem_singleton.mp hdir
              refine ⟨[c.name], hpe, ?_, hpe ▸ hnd2⟩
              rw [isChainPath_single, List.any_eq_true]
              exact ⟨c, hc, by simp [hsrc, hout]⟩
            · rw [if_neg hout] at hdir
              cases hdir
          · have hm : (registry.filter (fun d => d.name ∉ chain ++ [c.name])).length ≤ k := by
              have := filter_avail_strict hc hcn
              omega
            obtain ⟨suffix, hps, hpath, hpnd⟩ :=
              ih (chain ++ [c.name]) c.outputFormat out p hm hrec hnd2
            match suffix, hpath with
            | m :: rest, hpath =>
              refine ⟨c.name :: m :: rest, by simpa [List.append_assoc] using hps, ?_, hpnd⟩
              rw [isChainPath_cons, List.any_eq_true]
              exact ⟨c, hc, by simp [hsrc, hpath]⟩
        · rw [if_neg hsrc] at hmem
          cases hmem
    · rw [if_neg hguard] at hp
      cases hp

theorem fcc_complete : ∀ (p chain : List String) (src out : String),
    isChainPath src out p = true → (chain ++ p).Nodup →
    (chain ++ p) ∈ findConverterChain src out chain := by
  intro p
  induction p with
  | nil => intro chain src out h _; cases h
  | cons n rest ih =>
    intro chain src out h hnd
    rw [findConverterChain_eq]
    rw [if_pos ⟨path_src_mem _ _ _ h, path_out_mem _ _ _ h⟩]
    have hnmem : n ∉ chain := by
      rw [List.nodup_append] at hnd
      intro hmem
      exact hnd.2.2 hmem (List.mem_cons_self n rest)
    match rest, h, hnd with
    | [], h, hnd =>
      rw [isChainPath_single, List.any_eq_true] at h
      obtain ⟨c, hc, hp⟩ := h
      simp only [Bool.and_eq_true, decide_eq_true_eq] at hp
      apply List.mem_flatMap.mpr
      refine ⟨c, hc, ?_⟩
      rw [if_neg (hp.1.1 ▸ hnmem), if_pos hp.1.2]
      apply List.mem_append_left
      rw [if_pos hp.2, hp.1.1]
      exact List.mem_singleton.mpr rfl
    | m :: rest2, h, hnd =>
      rw [isChainPath_cons, List.any_eq_true] at h
      obtain ⟨c, hc, hp⟩ := h
      simp only [Bool.and_eq_true, decide_eq_true_eq] at hp
      apply List.mem_flatMap.mpr
      refine ⟨c, hc, ?_⟩
      rw [if_neg (hp.1.1 ▸ hnmem), if_pos hp.1.2]
      apply List.mem_append_right
      have hre : chain ++ n :: m :: rest2 = (chain ++ [n]) ++ (m :: rest2) := by
        simp
      rw [hre, hp.1.1]
      exact ih (chain ++ [n]) c.outputFormat out hp.2 (by rw [← hre]; exact hnd)

theorem fold_bound_le : ∀ (E : List (List String)) (req : List String)
    (acc : List String × Nat), (E.foldl (findConverterStep req) acc).2 ≤ acc.2 := by
  intro E
  induction E with
  | nil => intro req acc; exact Nat.le_refl _
  | cons h E' ih =>
    intro req acc
    rw [List.foldl_cons]
    refine Nat.le_trans (ih req (findConverterStep req acc h)) ?_
    simp only [findConverterStep]
    split_ifs with hcond
    · exact Nat.le_of_lt hcond.1
    · exact Nat.le_refl _

theorem fold_cases : ∀ (E : List (List String)) (req : List String)
    (acc : List String × Nat),
    E.foldl (findConverterStep req) acc = acc ∨
      (req.all (· ∈ (E.foldl (findConverterStep req) acc).1) = true ∧
       (E.foldl (findConverterStep req) acc).2 =
         (E.foldl (findConverterStep req) acc).1.length ∧
       (E.foldl (findConverterStep req) acc).1 ∈ E ∧
       (E.foldl (findConverterStep req) acc).2 < acc.2) := by
  intro E
  induction E with
  | nil => intro req acc; exact Or.inl rfl
  | cons h E' ih =>
    intro req acc
    rw [List.foldl_cons]
    by_cases hcond : h.length < acc.2 ∧ req.all (· ∈ h) = true
    · have hstep : findConverterStep req acc h = (h, h.length) := by
        simp only [findConverterStep]
        rw [if_pos hcond]
      rw [hstep]
      rcases ih req (h, h.length) with heq | ⟨hq, hlen, hmem, hlt⟩
      · right
        rw [heq]
        exact ⟨hcond.2, rfl, List.mem_cons_self h E', hcond.1⟩
      · right
        exact ⟨hq, hlen, List.mem_cons_of_mem h hmem, Nat.lt_trans hlt hcond.1⟩
    · have hstep : findConverterStep req acc h = acc := by
        simp only [findConverterStep]
        rw [if_neg hcond]
      rw [hstep]
      rcases ih req acc with heq | ⟨hq, hlen, hmem, hlt⟩
      · exact Or.inl heq
      · exact Or.inr ⟨hq, hlen, List.mem_cons_of_mem h hmem, hlt⟩

theorem fold_min : ∀ (E : List (List String)) (req : List String)
    (acc : List String × Nat) (p : List String),
    p ∈ E → req.all (· ∈ p) = true → p.length < acc.2 →
    (E.foldl (findConverterStep req) acc).2 ≤ p.length := by
  intro E
  induction E with
  | nil => intro req acc p hp; cases hp
  | cons h E' ih =>
    intro req acc p hp hq hlt
    rw [List.foldl_cons]
    rcases List.mem_cons.mp hp with rfl | hp2
    · have hstep : findConverterStep req acc p = (p, p.length) := by
        simp only [findConverterStep]
        rw [if_pos ⟨hlt, hq⟩]
      rw [hstep]
      exact fold_bound_le E' req (p, p.length)
    · by_cases hlt2 : p.length < (findConverterStep req acc h).2
      · exact ih req (findConverterStep req acc h) p hp2 hq hlt2
      · refine Nat.le_trans (fold_bound_le E' req (findConverterStep req acc h)) ?_
        omega

theorem fold_first : ∀ (E : List (List String)) (req : List String)
    (acc : List String × Nat) (w : List String),
    E.foldl (findConverterStep req) acc = (w, w.length) →
    w.length < acc.2 → req.all (· ∈ w) = true →
    ∃ E1 E2, E = E1 ++ w :: E2 ∧
      ∀ p ∈ E1, ¬(req.all (· ∈ p) = true ∧ p.length ≤ w.length) := by
  intro E
  induction E with
  | nil =>
    intro req acc w h hlt _
    rw [List.foldl_nil] at h
    have : acc.2 = w.length := congrArg Prod.snd h
    omega
  | cons h E' ih =>
    intro req acc w hfold hlt hq
    rw [List.foldl_cons] at hfold
    by_cases hcond : h.length < acc.2 ∧ req.all (· ∈ h) = true
    · have hstep : findConverterStep req acc h = (h, h.length) := by
        simp only [findConverterStep]
        rw [if_pos hcond]
      rw [hstep] at hfold
      rcases fold_cases E' req (h, h.length) with heq | ⟨_, _, _, hlt2⟩
      · rw [heq] at hfold
        have hw : h = w := congrArg Prod.fst hfold
        exact ⟨[], E', by simp [hw], by intro p hp; cases hp⟩
      · rw [hfold] at hlt2
        simp only [] at hlt2
        obtain ⟨E1, E2, hE, hE1⟩ := ih req (h, h.length) w hfold hlt2 hq
        refine ⟨h :: E1, E2, by simp [hE], ?_⟩
        intro p hp
        rcases List.mem_cons.mp hp with rfl | hp2
        · intro ⟨_, hle⟩
          omega
        · exact hE1 p hp2
    · have hstep : findConverterStep req acc h = acc := by
        simp only [findConverterStep]
        rw [if_neg hcond]
      rw [hstep] at hfold
      obtain ⟨E1, E2, hE, hE1⟩ := ih req acc w hfold hlt hq
      refine ⟨h :: E1, E2, by simp [hE], ?_⟩
      intro p hp
      rcases List.mem_cons.mp hp with rfl | hp2
      · intro ⟨hq2, hle⟩
        exact hcond ⟨by omega, hq2⟩
      · exact hE1 p hp2

/-- C3: find_converter enumerates only simple registry paths from the source
to the output format (soundness and no repeated name, so the search
terminates); returns None exactly when no simple path contains every required
name; and otherwise returns a qualifying simple path of minimal length among
all qualifying simple paths, the first such path discovered in the
enumeration order (no earlier enumerated chain qualifies with a length at
most that of the winner). -/
theorem c3_find_converter_correct (src out : String) (req : List String) :
    (∀ p ∈ findConverterChain src out [], isChainPath src out p = true ∧ p.Nodup) ∧
    (findConverter src out req = none →
      ∀ p, isChainPath src out p = true → p.Nodup → ¬ req.all (· ∈ p) = true) ∧
    (∀ w, findConverter src out req = some w →
      isChainPath src out w = true ∧ w.Nodup ∧ req.all (· ∈ w) = true ∧
      (∀ p, isChainPath src out p = true → p.Nodup → req.all (· ∈ p) = true →
        w.length ≤ p.length) ∧
      (∃ E1 E2, findConverterChain src out [] = E1 ++ w :: E2 ∧
        ∀ p ∈ E1, ¬(req.all (· ∈ p) = true ∧ p.length ≤ w.length))) := by
  have hsound : ∀ p ∈ findConverterChain src out [],
      isChainPath src out p = true ∧ p.Nodup := by
    intro p hp
    obtain ⟨suffix, hps, hpath, hnd⟩ := fcc_sound registry.length [] src out p
      (List.length_filter_le _ _) hp List.nodup_nil
    rw [List.nil_append] at hps
    exact ⟨hps ▸ hpath, hnd⟩
  have hmemE : ∀ p, isChainPath src out p = true → p.Nodup →
      p ∈ findConverterChain src out [] := by
    intro p hpath hnd
    have := fcc_complete p [] src out hpath (by simpa using hnd)
    simpa using this
  refine ⟨hsound, ?_, ?_⟩
  · intro hnone p hpath hnd hq
    have hpE := hmemE p hpath hnd
    have hplt : p.length < registry.length := path_len_lt p src out hpath hnd
    have hmin := fold_min (findConverterChain src out []) req ([], registry.length)
      p hpE hq hplt
    rcases fold_cases (findConverterChain src out []) req ([], registry.length) with
      heq | ⟨hq2, hlen2, hmem2, hlt2⟩
    · rw [heq] at hmin
      simp only [] at hmin
      omega
    · have hne : (List.foldl (findConverterStep req) ([], registry.length)
          (findConverterChain src out [])).1 ≠ [] := by
        intro hnil
        have := (hsound _ hmem2).1
        rw [hnil] at this
        cases this
      simp only [findConverter] at hnone
      rw [if_neg (by
        intro hzero
        exact hne (List.length_eq_zero.mp hzero))] at hnone
      cases hnone
  · intro w hsome
    simp only [findConverter] at hsome
    by_cases hzero : (List.foldl (findConverterStep req) ([], registry.length)
        (findConverterChain src out [])).1.length = 0
    · rw [if_pos hzero] at hsome
      cases hsome
    · rw [if_neg hzero] at hsome
      have hw : (List.foldl (findConverterStep req) ([], registry.length)
          (findConverterChain src out [])).1 = w := Option.some.inj hsome
      rcases fold_cases (findConverterChain src out []) req ([], registry.length) with
        heq | ⟨hq2, hlen2, hmem2, hlt2⟩
      · rw [heq] at hzero
        exact absurd rfl hzero
      · rw [hw] at hq2 hmem2
        have hpathw := (hsound w hmem2).1
        have hndw := (hsound w hmem2).2
        have hfold : List.foldl (findConverterStep req) ([], registry.length)
            (findConverterChain src out []) = (w, w.length) := by
          have h1 := hlen2
          rw [hw] at h1
          exact Prod.ext hw (by rw [h1])
        refine ⟨hpathw, hndw, hq2, ?_, ?_⟩
        · intro p hpath hnd hq
          have hpE := hmemE p hpath hnd
          have hplt : p.length < registry.length := path_len_lt p src out hpath hnd
          have := fold_min (findConverterChain src out []) req ([], registry.length)
            p hpE hq hplt
          rw [hfold] at this
          exact this
        · exact fold_first (findConverterChain src out []) req ([], registry.length) w
            hfold (by rw [hfold] at hlt2; exact hlt2) hq2

set_option maxRecDepth 100000 in
/-- Witness for C3: the resolver picks the two-edge kwb-to-ldf chain, which
is a simple path, and it is no longer than a concrete four-edge qualifying
alternative. -/
theorem c3_witness :
    findConverter "kwb" "ldf" [] = some ["kwb_to_brf", "brf_to_ldf"] ∧
    isChainPath "kwb" "ldf" ["kwb_to_brf", "brf_to_ldf"] = true ∧
    (["kwb_to_brf", "brf_to_ldf"] : List String).Nodup ∧
    (["kwb_to_brf", "brf_to_ldf"] : List String).length ≤
      (["kwb_to_brf", "brf_to_unicode", "unicode_to_brf", "brf_to_ldf"] :
        List String).length := by
  have hsome : findConverter "kwb" "ldf" [] = some ["kwb_to_brf", "brf_to_ldf"] := by rfl
  have h2 := (c3_find_converter_correct "kwb" "ldf" []).2.2 _ hsome
  exact ⟨hsome, h2.1, h2.2.1,
    h2.2.2.2.1 ["kwb_to_brf", "brf_to_unicode", "unicode_to_brf", "brf_to_ldf"]
      (by decide) (by decide) (by decide)⟩
